import Mathlib

/-!
# everynote.io — verification of the core specification

Shallow embedding of the everynote core: the encryption envelope engine
(key derivation + authenticated cipher), the envelope codec (URL-safe,
padding-free base64), the local note store with soft delete / retention,
the last-writer-wins sync merge, and the service worker's fetch/activate
handlers (from `sw.js`).

The crypto, codec, store and sync code lives in the application's
`index.html`, which is not part of the given sources; those components are
modelled from the specification (each such definition's doc comment starts
with "Modelled from the spec:").  The service-worker definitions are
translated directly from `sw.js`.
-/

namespace Everynote

/-- Byte strings are modelled as lists of naturals (each entry a byte value). -/
abbrev Bytes := List Nat

instance {ε α : Type} [DecidableEq ε] [DecidableEq α] : DecidableEq (Except ε α) := fun x y =>
  match x, y with
  | Except.ok a, Except.ok b =>
      if h : a = b then isTrue (congrArg Except.ok h)
      else isFalse (fun hh => h (Except.ok.inj hh))
  | Except.error a, Except.error b =>
      if h : a = b then isTrue (congrArg Except.error h)
      else isFalse (fun hh => h (Except.error.inj hh))
  | Except.ok _, Except.error _ => isFalse (fun hh => Except.noConfusion hh)
  | Except.error _, Except.ok _ => isFalse (fun hh => Except.noConfusion hh)

/-! ## Length-prefixed encoding, used by the symbolic cipher model -/

/-- Length-prefix a byte string, so that it can be recovered from the front of
a longer string. -/
def encBytes (l : Bytes) : Bytes := l.length :: l

/-- Split off a length-prefixed byte string from the front of `l`. -/
def decBytes (l : Bytes) : Option (Bytes × Bytes) :=
  match l with
  | [] => none
  | n :: rest => if n ≤ rest.length then some (rest.take n, rest.drop n) else none

theorem take_append_self (l₁ l₂ : Bytes) : (l₁ ++ l₂).take l₁.length = l₁ := by
  induction l₁ with
  | nil => rfl
  | cons a t ih => simp [List.take, ih]

theorem drop_append_self (l₁ l₂ : Bytes) : (l₁ ++ l₂).drop l₁.length = l₂ := by
  induction l₁ with
  | nil => rfl
  | cons a t ih => simp [List.drop, ih]

theorem decBytes_encBytes (a b : Bytes) :
    decBytes (encBytes a ++ b) = some (a, b) := by
  simp only [encBytes, decBytes, List.cons_append]
  rw [if_pos (by simp)]
  rw [take_append_self, drop_append_self]

/-! ## Key Derivation & Cipher (spec §4.1), modelled from the spec -/

/-- Modelled from the spec: the 256-bit key produced by
`derive(password, salt)` (PBKDF2-SHA256, 600,000 iterations, in the
absent `index.html`).  The KDF is modelled as an ideal, collision-free
function, represented symbolically by the pair of its inputs. -/
structure DerivedKey where
  password : Bytes
  salt : Bytes
deriving DecidableEq, Repr

/-- Modelled from the spec: `derive(password: bytes, salt: 16 bytes) -> key`. -/
def derive (password salt : Bytes) : DerivedKey := ⟨password, salt⟩

/-- The wire/at-rest representation of one encrypted payload (spec §3):
16-byte salt, 12-byte nonce, ciphertext bytes (tag included). -/
structure Envelope where
  salt : Bytes
  nonce : Bytes
  ciphertext : Bytes
deriving DecidableEq, Repr

/-- The only error decryption can produce (spec §4.1/§7). -/
inductive CryptoError where
  | AuthenticationFailed
deriving DecidableEq, Repr

/-- Modelled from the spec: AES-256-GCM sealing (in the absent
`index.html`), modelled as an ideal authenticated cipher: the sealed bytes
are an injective encoding of (key, nonce, plaintext), so that opening with
the exact key and nonce recovers the plaintext and any other key or nonce
fails the (ideal) tag check. -/
def aeadSeal (k : DerivedKey) (nonce plaintext : Bytes) : Bytes :=
  encBytes k.password ++ (encBytes k.salt ++ (encBytes nonce ++ plaintext))

/-- Modelled from the spec: AES-256-GCM opening with tag verification,
the inverse of `aeadSeal`; returns `none` (tag failure) unless the key and
nonce match the ones the bytes were sealed under. -/
def aeadOpen (k : DerivedKey) (nonce ct : Bytes) : Option Bytes :=
  match decBytes ct with
  | none => none
  | some (kp, r₁) =>
    match decBytes r₁ with
    | none => none
    | some (ks, r₂) =>
      match decBytes r₂ with
      | none => none
      | some (n, plaintext) =>
        if kp = k.password ∧ ks = k.salt ∧ n = nonce then some plaintext else none

/-- Modelled from the spec: `encrypt(plaintext, password) -> Envelope`.
The fresh randomness the implementation draws (16-byte salt, 12-byte
nonce) is passed explicitly as the last two arguments. -/
def encrypt (plaintext password salt nonce : Bytes) : Envelope :=
  ⟨salt, nonce, aeadSeal (derive password salt) nonce plaintext⟩

/-- Modelled from the spec: `decrypt(envelope, password) -> plaintext`,
deriving the key from the envelope's salt and failing with
`AuthenticationFailed` exactly when the tag does not verify. -/
def decrypt (env : Envelope) (password : Bytes) : Except CryptoError Bytes :=
  match aeadOpen (derive password env.salt) env.nonce env.ciphertext with
  | some plaintext => Except.ok plaintext
  | none => Except.error CryptoError.AuthenticationFailed

theorem aeadOpen_aeadSeal (k : DerivedKey) (nonce plaintext : Bytes) :
    aeadOpen k nonce (aeadSeal k nonce plaintext) = some plaintext := by
  simp [aeadSeal, aeadOpen, decBytes_encBytes]

example : decrypt (encrypt [1, 2, 3] [9] [5] [6]) [9] = Except.ok [1, 2, 3] := by decide

example : decrypt (encrypt [1, 2, 3] [9] [5] [6]) [8] =
    Except.error CryptoError.AuthenticationFailed := by decide

/-! ## Envelope Codec (spec §4.2), modelled from the spec

Constants from `src/IMPROVEMENTS.md` (`CONSTANTS.CRYPTO`):
`SALT_LENGTH = 16`, `IV_LENGTH = 12`. -/

/-- The URL-safe base64 alphabet (RFC 4648 §5). -/
def b64Alphabet : List Char :=
  ['A', 'B', 'C', 'D', 'E', 'F', 'G', 'H', 'I', 'J', 'K', 'L', 'M',
   'N', 'O', 'P', 'Q', 'R', 'S', 'T', 'U', 'V', 'W', 'X', 'Y', 'Z',
   'a', 'b', 'c', 'd', 'e', 'f', 'g', 'h', 'i', 'j', 'k', 'l', 'm',
   'n', 'o', 'p', 'q', 'r', 's', 't', 'u', 'v', 'w', 'x', 'y', 'z',
   '0', '1', '2', '3', '4', '5', '6', '7', '8', '9', '-', '_']

/-- The character encoding the 6-bit value `n`. -/
def b64CharOf (n : Nat) : Char := b64Alphabet.getD n 'A'

/-- Index of `c` in an alphabet suffix, starting the count at `i`. -/
def b64ValAux (c : Char) : List Char → Nat → Option Nat
  | [], _ => none
  | a :: rest, i => if a = c then some i else b64ValAux c rest (i + 1)

/-- The 6-bit value of a character, `none` when the character is outside
the URL-safe alphabet. -/
def b64ValOf (c : Char) : Option Nat := b64ValAux c b64Alphabet 0

/-- Whether a character belongs to the URL-safe base64 alphabet. -/
def isB64Char (c : Char) : Bool := (b64ValOf c).isSome

/-- Padding-free base64 encoding of a byte string: each 3-byte group maps
to 4 characters; a trailing 1-byte (2-byte) group maps to 2 (3)
characters, with no `=` padding. -/
def b64Encode (bs : Bytes) : List Char :=
  match bs with
  | [] => []
  | [a] => [b64CharOf (a / 4), b64CharOf (a % 4 * 16)]
  | [a, b] => [b64CharOf (a / 4), b64CharOf (a % 4 * 16 + b / 16), b64CharOf (b % 16 * 4)]
  | a :: b :: c :: rest =>
      b64CharOf (a / 4) :: b64CharOf (a % 4 * 16 + b / 16) ::
      b64CharOf (b % 16 * 4 + c / 64) :: b64CharOf (c % 64) :: b64Encode rest

/-- Map every character of a token to its 6-bit value; fails on the first
character outside the alphabet. -/
def b64Vals (s : List Char) : Option (List Nat) :=
  match s with
  | [] => some []
  | c :: cs =>
    match b64ValOf c, b64Vals cs with
    | some v, some vs => some (v :: vs)
    | _, _ => none

/-- Reassemble bytes from 6-bit values: 4 values yield 3 bytes; a trailing
group of 2 (3) values yields 1 (2) bytes; a trailing single value cannot
encode any byte and is malformed. -/
def b64DecodeVals (vs : List Nat) : Option Bytes :=
  match vs with
  | [] => some []
  | [_] => none
  | [a, b] => some [a * 4 + b / 16]
  | [a, b, c] => some [a * 4 + b / 16, b % 16 * 16 + c / 4]
  | a :: b :: c :: d :: rest =>
      (b64DecodeVals rest).map
        (fun l => (a * 4 + b / 16) :: (b % 16 * 16 + c / 4) :: (c % 4 * 64 + d) :: l)

/-- Padding-free URL-safe base64 decoding. -/
def b64Decode (s : List Char) : Option Bytes :=
  match b64Vals s with
  | none => none
  | some vs => b64DecodeVals vs

/-- The byte length base64 assigns to a token of a given character length
(3 bytes per full 4-character group, 1 or 2 bytes for a trailing group of
2 or 3 characters). -/
def decodedLen (t : List Char) : Nat :=
  t.length / 4 * 3 + (if t.length % 4 = 2 then 1 else if t.length % 4 = 3 then 2 else 0)

/-- The only error unpacking can produce (spec §4.2/§7). -/
inductive CodecError where
  | MalformedEnvelope
deriving DecidableEq, Repr

/-- Modelled from the spec: `pack(envelope) -> token` (in the absent
`index.html`): concatenate `salt || nonce || ciphertext` and encode with
URL-safe padding-free base64. -/
def pack (e : Envelope) : List Char :=
  b64Encode (e.salt ++ (e.nonce ++ e.ciphertext))

/-- Modelled from the spec: `unpack(token) -> Envelope` (in the absent
`index.html`): base64-decode, fail with `MalformedEnvelope` when decoding
fails or fewer than `16 + 12 = 28` bytes result, else split into a
16-byte salt, a 12-byte nonce and the remaining ciphertext. -/
def unpack (t : List Char) : Except CodecError Envelope :=
  match b64Decode t with
  | none => Except.error CodecError.MalformedEnvelope
  | some bs =>
    if bs.length < 28 then Except.error CodecError.MalformedEnvelope
    else Except.ok ⟨bs.take 16, (bs.drop 16).take 12, bs.drop 28⟩

example : b64Encode [77, 97, 110] = ['T', 'W', 'F', 'u'] := by decide

example : b64Decode ['T', 'W', 'F', 'u'] = some [77, 97, 110] := by decide

example : b64Decode ['T', 'W', 'E'] = some [77, 97] := by decide

example : b64Decode ['T', 'W'] = some [77] := by decide

example : b64Decode ['T'] = none := by decide

example : b64Decode ['T', '!'] = none := by decide

theorem b64ValOf_b64CharOf_fin : ∀ v : Fin 64, b64ValOf (b64CharOf v.val) = some v.val := by
  decide

theorem b64ValOf_b64CharOf (v : Nat) (h : v < 64) : b64ValOf (b64CharOf v) = some v :=
  b64ValOf_b64CharOf_fin ⟨v, h⟩

theorem b64Decode_b64Encode :
    ∀ bs : Bytes, (∀ x ∈ bs, x < 256) → b64Decode (b64Encode bs) = some bs := by
  intro bs
  induction bs using b64Encode.induct with
  | case1 => intro _; rfl
  | case2 a =>
      intro h
      have ha : a < 256 := h a (by simp)
      simp only [b64Encode, b64Decode, b64Vals,
        b64ValOf_b64CharOf (a / 4) (by omega),
        b64ValOf_b64CharOf (a % 4 * 16) (by omega), b64DecodeVals]
      simp only [Option.some.injEq, List.cons.injEq, and_true]
      omega
  | case3 a b =>
      intro h
      have ha : a < 256 := h a (by simp)
      have hb : b < 256 := h b (by simp)
      simp only [b64Encode, b64Decode, b64Vals,
        b64ValOf_b64CharOf (a / 4) (by omega),
        b64ValOf_b64CharOf (a % 4 * 16 + b / 16) (by omega),
        b64ValOf_b64CharOf (b % 16 * 4) (by omega), b64DecodeVals]
      simp only [Option.some.injEq, List.cons.injEq, and_true]
      constructor
      · omega
      · omega
  | case4 a b c rest ih =>
      intro h
      have ha : a < 256 := h a (by simp)
      have hb : b < 256 := h b (by simp)
      have hc : c < 256 := h c (by simp)
      have ih' : b64Decode (b64Encode rest) = some rest :=
        ih (fun x hx => h x (by simp [hx]))
      rcases hv : b64Vals (b64Encode rest) with _ | vs
      · rw [b64Decode, hv] at ih'
        exact absurd ih' (by simp)
      · rw [b64Decode, hv] at ih'
        have hdv : b64DecodeVals vs = some rest := ih'
        simp only [b64Encode, b64Decode, b64Vals,
          b64ValOf_b64CharOf (a / 4) (by omega),
          b64ValOf_b64CharOf (a % 4 * 16 + b / 16) (by omega),
          b64ValOf_b64CharOf (b % 16 * 4 + c / 64) (by omega),
          b64ValOf_b64CharOf (c % 64) (by omega), hv, b64DecodeVals, hdv]
        simp only [Option.map_some', Option.some.injEq, List.cons.injEq, and_true]
        refine ⟨by omega, by omega, by omega⟩

theorem unpack_pack (e : Envelope) (hs : e.salt.length = 16) (hn : e.nonce.length = 12)
    (hb : ∀ x ∈ e.salt ++ (e.nonce ++ e.ciphertext), x < 256) :
    unpack (pack e) = Except.ok e := by
  have hrt := b64Decode_b64Encode _ hb
  have h1 : (e.salt ++ (e.nonce ++ e.ciphertext)).take 16 = e.salt := by
    rw [← hs]; exact take_append_self _ _
  have h2 : (e.salt ++ (e.nonce ++ e.ciphertext)).drop 16 = e.nonce ++ e.ciphertext := by
    rw [← hs]; exact drop_append_self _ _
  have h3 : ((e.salt ++ (e.nonce ++ e.ciphertext)).drop 16).take 12 = e.nonce := by
    rw [h2, ← hn]; exact take_append_self _ _
  have h4 : (e.salt ++ (e.nonce ++ e.ciphertext)).drop 28 = e.ciphertext := by
    have h28 : (28 : Nat) = 16 + 12 := rfl
    rw [h28, ← List.drop_drop, h2, ← hn, drop_append_self]
  have hlen : ¬ (e.salt ++ (e.nonce ++ e.ciphertext)).length < 28 := by
    simp [hs, hn]
    omega
  simp only [pack, unpack, hrt, hlen, if_neg, h1, h3, h4, if_false]

theorem b64Vals_eq_none_iff (t : List Char) :
    b64Vals t = none ↔ t.all isB64Char = false := by
  induction t with
  | nil => simp [b64Vals]
  | cons c cs ih =>
      rcases hv : b64ValOf c with _ | v
      · simp [b64Vals, hv, isB64Char]
      · rcases hvs : b64Vals cs with _ | vs
        · have hall := ih.mp hvs
          simp [b64Vals, hv, hvs, isB64Char, hall]
        · have hne : ¬ cs.all isB64Char = false := fun hf => by
            rw [ih.mpr hf] at hvs
            exact Option.noConfusion hvs
          have hall : cs.all isB64Char = true := by
            cases hcs : cs.all isB64Char
            · exact absurd hcs hne
            · rfl
          simp [b64Vals, hv, hvs, isB64Char, hall]

theorem b64Vals_length (t : List Char) :
    ∀ vs, b64Vals t = some vs → vs.length = t.length := by
  induction t with
  | nil =>
      intro vs h
      simp [b64Vals] at h
      simp [← h]
  | cons c cs ih =>
      intro vs h
      rcases hv : b64ValOf c with _ | v <;>
        rcases hvs : b64Vals cs with _ | ws <;>
          simp [b64Vals, hv, hvs] at h
      subst h
      simp [ih ws hvs]

theorem b64DecodeVals_eq_none_iff (vs : List Nat) :
    b64DecodeVals vs = none ↔ vs.length % 4 = 1 := by
  induction vs using b64DecodeVals.induct with
  | case1 => simp [b64DecodeVals]
  | case2 a => simp [b64DecodeVals]
  | case3 a b => simp [b64DecodeVals]
  | case4 a b c => simp [b64DecodeVals]
  | case5 a b c d rest ih =>
      rcases hr : b64DecodeVals rest with _ | l <;>
        simp [b64DecodeVals, hr, ← ih] <;> simp [hr] at ih ⊢ <;> omega

theorem b64DecodeVals_length (vs : List Nat) :
    ∀ bs, b64DecodeVals vs = some bs →
      bs.length = vs.length / 4 * 3 +
        (if vs.length % 4 = 2 then 1 else if vs.length % 4 = 3 then 2 else 0) := by
  induction vs using b64DecodeVals.induct with
  | case1 => intro bs h; simp [b64DecodeVals] at h; subst h; simp
  | case2 a => intro bs h; simp [b64DecodeVals] at h
  | case3 a b => intro bs h; simp [b64DecodeVals] at h; subst h; simp
  | case4 a b c => intro bs h; simp [b64DecodeVals] at h; subst h; simp
  | case5 a b c d rest ih =>
      intro bs h
      rcases hr : b64DecodeVals rest with _ | l <;> simp [b64DecodeVals, hr] at h
      have hl := ih l hr
      subst h
      simp only [List.length_cons]
      split_ifs at hl ⊢ <;> omega

/-! ## Note records and the Local Store (spec §3, §4.3, §4.5), modelled from the spec -/

/-- Modelled from the spec: a Note record (spec §3).  Timestamps are
naturals comparable across devices; `deletedAt = none` means active. -/
structure Note where
  id : String
  ownerId : String
  title : Option String
  content : Option String
  isEncrypted : Bool
  isPrivate : Bool
  createdAt : Nat
  updatedAt : Nat
  deletedAt : Option Nat
deriving DecidableEq, Repr

/-- The Local Store: the device's authoritative list of Note records,
keyed by `id`. -/
abbrev Store := List Note

/-- Errors of store mutations (spec §4.3/§7). -/
inductive StoreError where
  | OwnershipViolation
  | NotFound
  | NotRestorable
deriving DecidableEq, Repr

/-- Errors of a sync merge (spec §4.4/§7). -/
inductive SyncError where
  | ConflictViolation
deriving DecidableEq, Repr

/-- Modelled from the spec: `get(id)`, the first record with the given id. -/
def lookup (s : Store) (i : String) : Option Note :=
  s.find? (fun n => n.id == i)

/-- Modelled from the spec: `put(note)` (spec §4.3), a full-record upsert
keyed by `id` that fails with `OwnershipViolation` (store unchanged) on an
attempt to change `ownerId` on an existing `id`. -/
def put (s : Store) (n : Note) : Except StoreError Store :=
  match lookup s n.id with
  | some m =>
      if m.ownerId = n.ownerId then
        Except.ok (s.map (fun k => if k.id = n.id then n else k))
      else Except.error StoreError.OwnershipViolation
  | none => Except.ok (s ++ [n])

/-- Modelled from the spec: `delete(id)` (spec §4.3), soft delete stamping
`deletedAt = now`. -/
def softDelete (s : Store) (i : String) (now : Nat) : Store :=
  s.map (fun k => if k.id = i then { k with deletedAt := some now } else k)

/-- Whether a Note's retention window has elapsed:
`now - deletedAt > retentionWindow` (spec §4.3). -/
def isExpired (window now : Nat) (n : Note) : Bool :=
  match n.deletedAt with
  | some d => window < now - d
  | none => false

/-- Modelled from the spec: `purgeExpired(retentionWindow, now)` (spec
§4.3), permanently removing every Note where
`now - deletedAt > retentionWindow`. -/
def purgeExpired (window now : Nat) (s : Store) : Store :=
  s.filter (fun n => ! isExpired window now n)

/-- Modelled from the spec: restore (spec §4.5), `SoftDeleted -> Active`,
permitted only while `now - deletedAt <= retentionWindow`, clearing
`deletedAt`. -/
def restore (s : Store) (i : String) (window now : Nat) : Except StoreError Store :=
  match lookup s i with
  | none => Except.error StoreError.NotFound
  | some n =>
    match n.deletedAt with
    | none => Except.error StoreError.NotRestorable
    | some d =>
      if now - d ≤ window then
        Except.ok (s.map (fun k => if k.id = i then { k with deletedAt := none } else k))
      else Except.error StoreError.NotRestorable

/-! ## Sync Engine conflict resolution (spec §4.4), modelled from the spec -/

/-- Modelled from the spec: merging a pulled remote Note into the local
copy (spec §4.4): rejected as `ConflictViolation` when `ownerId` differs,
otherwise the pulled Note overwrites the local copy only if its
`updatedAt` is strictly greater. -/
def applyPull (loc remote : Note) : Except SyncError Note :=
  if loc.ownerId ≠ remote.ownerId then Except.error SyncError.ConflictViolation
  else Except.ok (if loc.updatedAt < remote.updatedAt then remote else loc)

/-- Modelled from the spec: one pull applied to a (local, remote) pair of
same-id Notes: the local copy is overwritten only when the remote
`updatedAt` is strictly greater; the remote side is untouched. -/
def pullStep (p : Note × Note) : Note × Note :=
  if p.1.updatedAt < p.2.updatedAt then (p.2, p.2) else p

/-- Modelled from the spec: one push of the local Note applied to a
(local, remote) pair of same-id Notes (spec §4.4): a strictly greater
remote `updatedAt` rejects the push and pulls the remote copy back; a
strictly smaller one applies the local Note remotely; equality is a
no-op. -/
def pushStep (p : Note × Note) : Note × Note :=
  if p.2.updatedAt < p.1.updatedAt then (p.1, p.1)
  else if p.1.updatedAt < p.2.updatedAt then (p.2, p.2)
  else p

/-! ## Service worker (`src/sw.js`) -/

/-- The constant VERSION = '2' of `sw.js` line 3. -/
def VERSION : String := "2"

/-- Cache name, the template literal prefixing VERSION with
"everynote-v" (`sw.js` line 4). -/
def CACHE_NAME : String := "everynote-v" ++ VERSION

/-- JavaScript `String.prototype.includes` on explicit character lists. -/
def listIncludes (hay needle : List Char) : Bool :=
  match hay with
  | [] => needle.isEmpty
  | _ :: t => needle.isPrefixOf hay || listIncludes t needle

/-- JavaScript `url.includes(sub)`. -/
def strIncludes (hay sub : String) : Bool := listIncludes hay.toList sub.toList

/-- JavaScript `str.endsWith(pat)` on the underlying character lists. -/
def strEndsWith (s pat : String) : Bool :=
  pat.toList.reverse.isPrefixOf s.toList.reverse

/-- The inputs of the fetch handler that its control flow inspects:
`event.request.method`, `event.request.url`, `event.request.mode` and the
`pathname` of `new URL(event.request.url)`. -/
structure FetchRequest where
  method : String
  url : String
  mode : String
  pathname : String
deriving DecidableEq, Repr

/-- What the fetch listener does with an event: return without calling
`respondWith` (the request is not intercepted and no cache is read or
written), or respond with the network-first strategy (HTML), or with the
cache-first strategy (other assets). -/
inductive FetchAction where
  | passthrough
  | respondNetworkFirst
  | respondCacheFirst
deriving DecidableEq, Repr

/-- Whether the action reads or writes any cache: only the two
`respondWith` strategies touch `caches`. -/
def usesCache : FetchAction → Bool
  | FetchAction.passthrough => false
  | FetchAction.respondNetworkFirst => true
  | FetchAction.respondCacheFirst => true

/-- The fetch listener of `sw.js` (lines 46-114): skip non-GET requests,
skip Firebase / external API requests, use network-first for navigations
and HTML paths, and cache-first for everything else. -/
def handleFetch (req : FetchRequest) : FetchAction :=
  if req.method ≠ "GET" then FetchAction.passthrough
  else if strIncludes req.url "firebase" || strIncludes req.url "googleapis" ||
      strIncludes req.url "gstatic" then FetchAction.passthrough
  else if req.mode = "navigate" || req.pathname = "/" ||
      strEndsWith req.pathname ".html" then FetchAction.respondNetworkFirst
  else FetchAction.respondCacheFirst

/-- The activate listener of `sw.js` (lines 27-43): delete ANY cache whose
name is not `CACHE_NAME`; this returns the cache names that survive. -/
def activateSurvivors (cacheNames : List String) : List String :=
  cacheNames.filter (fun c => c == CACHE_NAME)

/-- Every cache name the worker ever passes to `caches.open`: in the
install handler (line 14) and in both fetch strategies (lines 71, 101). -/
def openedCacheNames : List String := [CACHE_NAME, CACHE_NAME, CACHE_NAME]

example : handleFetch ⟨"POST", "https://example.com/a", "cors", "/a"⟩ =
    FetchAction.passthrough := by decide

example : handleFetch ⟨"GET", "https://firestore.googleapis.com/x", "cors", "/x"⟩ =
    FetchAction.passthrough := by decide

example : handleFetch ⟨"GET", "https://example.com/", "navigate", "/"⟩ =
    FetchAction.respondNetworkFirst := by decide

example : handleFetch ⟨"GET", "https://example.com/app.js", "cors", "/app.js"⟩ =
    FetchAction.respondCacheFirst := by decide

/-! ## Store lemmas -/

theorem lookup_cons (x : Note) (l : Store) (i : String) :
    lookup (x :: l) i = if x.id = i then some x else lookup l i := by
  by_cases h : x.id = i
  · simp [lookup, List.find?, h]
  · have hb : (x.id == i) = false := beq_eq_false_iff_ne.mpr h
    simp [lookup, List.find?, hb, h]

theorem lookup_replace (s : Store) (n' : Note) (i : String) :
    lookup (s.map (fun k => if k.id = n'.id then n' else k)) i =
      if n'.id = i then (lookup s i).map (fun _ => n') else lookup s i := by
  induction s with
  | nil => by_cases hi : n'.id = i <;> simp [lookup, hi]
  | cons k t ih =>
      rw [List.map_cons, lookup_cons, lookup_cons]
      by_cases hk : k.id = n'.id
      · rw [if_pos hk]
        by_cases hi : n'.id = i
        · have hki : k.id = i := hk.trans hi
          rw [if_pos hi, if_pos hi, if_pos hki]
          simp
        · have hki : ¬ k.id = i := fun hh => hi (hk.symm.trans hh)
          rw [if_neg hi, if_neg hi, if_neg hki, ih, if_neg hi]
      · rw [if_neg hk]
        by_cases hki : k.id = i
        · have hi : ¬ n'.id = i := fun hh => hk (hki.trans hh.symm)
          rw [if_pos hki, if_neg hi, if_pos hki]
        · rw [if_neg hki, ih]
          by_cases hi : n'.id = i
          · rw [if_pos hi, if_pos hi, if_neg hki]
          · rw [if_neg hi, if_neg hi, if_neg hki]

theorem lookup_append_left (s : Store) (n : Note) (i : String) (m : Note)
    (h : lookup s i = some m) : lookup (s ++ [n]) i = some m := by
  simp only [lookup, List.find?_append] at h ⊢
  simp [h]

theorem put_preserves_ownerId (s : Store) (n : Note) (s' : Store)
    (h : put s n = Except.ok s') (i : String) (mOld mNew : Note)
    (hOld : lookup s i = some mOld) (hNew : lookup s' i = some mNew) :
    mNew.ownerId = mOld.ownerId := by
  rcases hm : lookup s n.id with _ | m
  · simp only [put, hm] at h
    have hs' : s' = s ++ [n] := by
      cases h; rfl
    subst hs'
    rw [lookup_append_left s n i mOld hOld] at hNew
    cases hNew
    rfl
  · simp only [put, hm] at h
    by_cases how : m.ownerId = n.ownerId
    · rw [if_pos how] at h
      have hs' : s' = s.map (fun k => if k.id = n.id then n else k) := by
        cases h; rfl
      subst hs'
      rw [lookup_replace] at hNew
      by_cases hi : n.id = i
      · rw [if_pos hi, hOld, Option.map_some'] at hNew
        have hnm : n = mNew := Option.some.inj hNew
        rw [← hi, hm] at hOld
        have hmm : m = mOld := Option.some.inj hOld
        rw [← hnm, ← hmm, ← how]
      · rw [if_neg hi, hOld] at hNew
        have : mOld = mNew := Option.some.inj hNew
        rw [this]
    · rw [if_neg how] at h
      exact Except.noConfusion h

theorem mem_purgeExpired (window now : Nat) (s : Store) (n : Note) :
    n ∈ purgeExpired window now s ↔ n ∈ s ∧ ¬ isExpired window now n = true := by
  simp [purgeExpired, List.mem_filter]

/-- Every record id of `s` survives into `s'`. -/
def idPreserved (s s' : Store) : Prop :=
  ∀ m ∈ s, ∃ m', m' ∈ s' ∧ m'.id = m.id

theorem idPreserved_map (s : Store) (f : Note → Note) (hf : ∀ k, (f k).id = k.id) :
    idPreserved s (s.map f) :=
  fun m hm => ⟨f m, List.mem_map_of_mem f hm, hf m⟩

/-! ## The claims -/

/-- C1: for every plaintext byte string `P` and password `W`, with the
fresh randomness encrypt draws (salt, nonce) made explicit,
`decrypt(encrypt(P, W), W)` succeeds and returns exactly `P`. -/
theorem c1_decrypt_encrypt_roundtrip (P W salt nonce : Bytes) :
    decrypt (encrypt P W salt nonce) W = Except.ok P := by
  simp [decrypt, encrypt, aeadOpen_aeadSeal]

/-- C2: decrypting under any password other than the one used to encrypt
fails with `AuthenticationFailed`; moreover `AuthenticationFailed` is the
only error `decrypt` can produce, so the wrong-password and
corrupted-data failures carry the same observable error value. -/
theorem c2_wrong_password_auth_failed (P W Wp salt nonce : Bytes) (h : Wp ≠ W) :
    decrypt (encrypt P W salt nonce) Wp = Except.error CryptoError.AuthenticationFailed
    ∧ (∀ env pw e, decrypt env pw = Except.error e → e = CryptoError.AuthenticationFailed) := by
  constructor
  · have haead : aeadOpen (derive Wp salt) nonce (aeadSeal (derive W salt) nonce P) = none := by
      simp only [aeadOpen, aeadSeal, derive, decBytes_encBytes]
      rw [if_neg]
      intro hc
      exact h hc.1.symm
    simp [decrypt, encrypt, haead]
  · intro env pw e _
    cases e
    rfl

theorem c2_wrong_password_auth_failed_witness :
    decrypt (encrypt [104, 105] [1, 2] [3] [4]) [9] =
      Except.error CryptoError.AuthenticationFailed :=
  (c2_wrong_password_auth_failed [104, 105] [1, 2] [9] [3] [4] (by decide)).1

/-- C4: two calls to encrypt on the same plaintext and password whose
independently drawn randomness is fresh (distinct salts and distinct
nonces) produce Envelopes with different salt, nonce and ciphertext, and
both still decrypt to the plaintext under the same password. -/
theorem c4_fresh_randomness_distinct_envelopes (P W s₁ n₁ s₂ n₂ : Bytes)
    (hs : s₁ ≠ s₂) (hn : n₁ ≠ n₂) :
    (encrypt P W s₁ n₁).salt ≠ (encrypt P W s₂ n₂).salt
    ∧ (encrypt P W s₁ n₁).nonce ≠ (encrypt P W s₂ n₂).nonce
    ∧ (encrypt P W s₁ n₁).ciphertext ≠ (encrypt P W s₂ n₂).ciphertext
    ∧ decrypt (encrypt P W s₁ n₁) W = Except.ok P
    ∧ decrypt (encrypt P W s₂ n₂) W = Except.ok P := by
  refine ⟨hs, hn, ?_, ?_, ?_⟩
  · intro hceq
    simp only [encrypt, aeadSeal, derive] at hceq
    have h1 := congrArg decBytes hceq
    rw [decBytes_encBytes, decBytes_encBytes] at h1
    have h2 : encBytes s₁ ++ (encBytes n₁ ++ P) = encBytes s₂ ++ (encBytes n₂ ++ P) :=
      congrArg Prod.snd (Option.some.inj h1)
    have h3 := congrArg decBytes h2
    rw [decBytes_encBytes, decBytes_encBytes] at h3
    exact hs (congrArg Prod.fst (Option.some.inj h3))
  · simp [decrypt, encrypt, aeadOpen_aeadSeal]
  · simp [decrypt, encrypt, aeadOpen_aeadSeal]

theorem c4_fresh_randomness_distinct_envelopes_witness :
    (encrypt [1] [2] [3] [4]).salt ≠ (encrypt [1] [2] [5] [6]).salt
    ∧ (encrypt [1] [2] [3] [4]).nonce ≠ (encrypt [1] [2] [5] [6]).nonce
    ∧ (encrypt [1] [2] [3] [4]).ciphertext ≠ (encrypt [1] [2] [5] [6]).ciphertext
    ∧ decrypt (encrypt [1] [2] [3] [4]) [2] = Except.ok [1]
    ∧ decrypt (encrypt [1] [2] [5] [6]) [2] = Except.ok [1] :=
  c4_fresh_randomness_distinct_envelopes [1] [2] [3] [4] [5] [6] (by decide) (by decide)

/-- C3: for every Envelope with a 16-byte salt, a 12-byte nonce and
arbitrary ciphertext bytes, `unpack (pack E)` succeeds and returns an
Envelope byte-for-byte equal to `E`. -/
theorem c3_unpack_pack_roundtrip (E : Envelope) (hs : E.salt.length = 16)
    (hn : E.nonce.length = 12)
    (hb : ∀ x ∈ E.salt ++ (E.nonce ++ E.ciphertext), x < 256) :
    unpack (pack E) = Except.ok E :=
  unpack_pack E hs hn hb

/-- A concrete Envelope used to instantiate the codec claims. -/
def demoEnvelope : Envelope :=
  ⟨List.replicate 16 7, List.replicate 12 9, [0, 255, 17]⟩

theorem c3_unpack_pack_roundtrip_witness :
    unpack (pack demoEnvelope) = Except.ok demoEnvelope :=
  c3_unpack_pack_roundtrip demoEnvelope (by decide) (by decide) (by decide)

/-- C8 counterexample: a token of 41 alphabet characters (41 mod 4 = 1)
has every character inside the URL-safe alphabet and a nominal decoded
byte length of 30 ≥ 28, yet `unpack` fails with `MalformedEnvelope`,
because no byte string has a padding-free base64 encoding whose length is
1 mod 4. -/
theorem c8_unpack_counterexample :
    (List.replicate 41 'A').all isB64Char = true
    ∧ decodedLen (List.replicate 41 'A') = 30
    ∧ ¬ decodedLen (List.replicate 41 'A') < 28
    ∧ unpack (List.replicate 41 'A') = Except.error CodecError.MalformedEnvelope :=
  ⟨by decide, by decide, by decide, by decide⟩

/-- C8 (amended): `unpack t` fails with `MalformedEnvelope` exactly when
`t` has a character outside the URL-safe alphabet, or `t.length` is
1 mod 4 (not a base64 length of any byte string), or the decoded byte
length is shorter than 16 + 12 = 28; otherwise it succeeds and splits the
decoded bytes into a 16-byte salt, a 12-byte nonce and the remaining
ciphertext. -/
theorem c8_unpack_amended (t : List Char) :
    (unpack t = Except.error CodecError.MalformedEnvelope ↔
      (¬ t.all isB64Char = true ∨ t.length % 4 = 1 ∨ decodedLen t < 28))
    ∧ (∀ e, unpack t = Except.ok e →
        ∃ bs, b64Decode t = some bs ∧ bs.length = decodedLen t ∧
          e.salt = bs.take 16 ∧ e.nonce = (bs.drop 16).take 12 ∧
          e.ciphertext = bs.drop 28) := by
  rcases hv : b64Vals t with _ | vs
  · have hall := (b64Vals_eq_none_iff t).mp hv
    have hdec : b64Decode t = none := by
      simp only [b64Decode, hv]
    have hunp : unpack t = Except.error CodecError.MalformedEnvelope := by
      simp only [unpack, hdec]
    constructor
    · rw [hunp]
      exact ⟨fun _ => Or.inl (by simp [hall]), fun _ => rfl⟩
    · intro e he
      rw [hunp] at he
      exact Except.noConfusion he
  · have hlenv := b64Vals_length t vs hv
    have hall : t.all isB64Char = true := by
      cases hcs : t.all isB64Char
      · rw [(b64Vals_eq_none_iff t).mpr hcs] at hv
        exact Option.noConfusion hv
      · rfl
    rcases hd : b64DecodeVals vs with _ | bs
    · have hmod : t.length % 4 = 1 := by
        rw [← hlenv]
        exact (b64DecodeVals_eq_none_iff vs).mp hd
      have hdec : b64Decode t = none := by
        simp only [b64Decode, hv, hd]
      have hunp : unpack t = Except.error CodecError.MalformedEnvelope := by
        simp only [unpack, hdec]
      constructor
      · rw [hunp]
        exact ⟨fun _ => Or.inr (Or.inl hmod), fun _ => rfl⟩
      · intro e he
        rw [hunp] at he
        exact Except.noConfusion he
    · have hbl : bs.length = decodedLen t := by
        rw [decodedLen, ← hlenv]
        exact b64DecodeVals_length vs bs hd
      have hdec : b64Decode t = some bs := by
        simp only [b64Decode, hv, hd]
      by_cases hlt : bs.length < 28
      · have hunp : unpack t = Except.error CodecError.MalformedEnvelope := by
          simp only [unpack, hdec]
          rw [if_pos hlt]
        constructor
        · rw [hunp]
          exact ⟨fun _ => Or.inr (Or.inr (by rw [← hbl]; exact hlt)), fun _ => rfl⟩
        · intro e he
          rw [hunp] at he
          exact Except.noConfusion he
      · have hunp : unpack t =
            Except.ok ⟨bs.take 16, (bs.drop 16).take 12, bs.drop 28⟩ := by
          simp only [unpack, hdec]
          rw [if_neg hlt]
        constructor
        · rw [hunp]
          constructor
          · intro hcontra
            exact Except.noConfusion hcontra
          · intro hdisj
            rcases hdisj with hc | hc | hc
            · exact absurd hall hc
            · rw [← hlenv] at hc
              rw [(b64DecodeVals_eq_none_iff vs).mpr hc] at hd
              exact Option.noConfusion hd
            · rw [← hbl] at hc
              exact absurd hc hlt
        · intro e he
          rw [hunp] at he
          have hee := Except.ok.inj he
          exact ⟨bs, hdec, hbl, by rw [← hee], by rw [← hee], by rw [← hee]⟩

theorem c8_unpack_amended_witness :
    unpack ['!'] = Except.error CodecError.MalformedEnvelope :=
  (c8_unpack_amended ['!']).1.mpr (Or.inl (by decide))

/-- A local Note in conflict with [noteEqualStamp]: same id, same
updatedAt, different content. -/
def noteLocal : Note :=
  ⟨"n1", "u1", some "T", some "alpha", false, false, 0, 5, none⟩

/-- A remote Note in conflict with [noteLocal]: same id and updatedAt but
different content. -/
def noteEqualStamp : Note :=
  ⟨"n1", "u1", some "T", some "beta", false, false, 0, 5, none⟩

/-- A remote Note conflicting with [noteLocal] at a strictly greater
updatedAt. -/
def noteLater : Note :=
  ⟨"n1", "u1", some "T", some "gamma", false, false, 0, 9, none⟩

/-- C5 counterexample: a pair of conflicting Notes (same id, different
content) with equal `updatedAt`.  Pull-then-push and push-then-pull agree
with each other, but both are no-ops, so the two stores do NOT converge
to the same `(title, content, updatedAt)`: the claim as stated fails. -/
theorem c5_lww_counterexample :
    noteLocal.id = noteEqualStamp.id
    ∧ noteLocal.content ≠ noteEqualStamp.content
    ∧ pushStep (pullStep (noteLocal, noteEqualStamp)) =
        pullStep (pushStep (noteLocal, noteEqualStamp))
    ∧ (pushStep (pullStep (noteLocal, noteEqualStamp))).1.content ≠
        (pushStep (pullStep (noteLocal, noteEqualStamp))).2.content :=
  ⟨rfl, by decide, by decide, by decide⟩

/-- C5 (amended): for a pair of conflicting same-id Notes, pull-then-push
and push-then-pull always produce the same pair of stores; when the two
`updatedAt` differ both stores converge to one common Note; when they are
equal both orders are no-ops (the stores stay exactly as they were, which
may leave differing content); and re-applying an already-applied push or
pull leaves both stores unchanged (idempotence). -/
theorem c5_lww_merge (l r : Note) (_hid : l.id = r.id) :
    pushStep (pullStep (l, r)) = pullStep (pushStep (l, r))
    ∧ (l.updatedAt ≠ r.updatedAt →
        (pushStep (pullStep (l, r))).1 = (pushStep (pullStep (l, r))).2)
    ∧ (l.updatedAt = r.updatedAt →
        pushStep (pullStep (l, r)) = (l, r) ∧ pullStep (pushStep (l, r)) = (l, r))
    ∧ pushStep (pushStep (l, r)) = pushStep (l, r)
    ∧ pullStep (pullStep (l, r)) = pullStep (l, r) := by
  rcases Nat.lt_trichotomy l.updatedAt r.updatedAt with h | h | h
  · have h2 : ¬ r.updatedAt < l.updatedAt := Nat.lt_asymm h
    refine ⟨?_, fun _ => ?_, fun he => absurd he (by omega), ?_, ?_⟩ <;>
      simp [pullStep, pushStep, h, h2, Nat.lt_irrefl]
  · refine ⟨?_, fun hne => absurd h hne, fun _ => ?_, ?_, ?_⟩ <;>
      simp [pullStep, pushStep, h, Nat.lt_irrefl]
  · have h2 : ¬ l.updatedAt < r.updatedAt := Nat.lt_asymm h
    refine ⟨?_, fun _ => ?_, fun he => absurd he (by omega), ?_, ?_⟩ <;>
      simp [pullStep, pushStep, h, h2, Nat.lt_irrefl]

theorem c5_lww_merge_witness :
    (pushStep (pullStep (noteLocal, noteLater))).1 =
      (pushStep (pullStep (noteLocal, noteLater))).2 :=
  (c5_lww_merge noteLocal noteLater rfl).2.1 (by decide)

/-- C6: `put` of a Note whose id already exists with a different
`ownerId` fails with `OwnershipViolation` (no new store is produced, so
the store is unchanged); a pulled Note whose `ownerId` differs from the
local copy's is rejected as `ConflictViolation`; and every successful
`put` preserves the `ownerId` of every id already in the store, so
`ownerId` is immutable. -/
theorem c6_ownerId_immutable (s : Store) (n m : Note)
    (hl : lookup s n.id = some m) (ho : ¬ m.ownerId = n.ownerId) :
    put s n = Except.error StoreError.OwnershipViolation
    ∧ (∀ lc rm : Note, lc.ownerId ≠ rm.ownerId →
        applyPull lc rm = Except.error SyncError.ConflictViolation)
    ∧ (∀ n' s', put s n' = Except.ok s' → ∀ i mOld mNew,
        lookup s i = some mOld → lookup s' i = some mNew →
        mNew.ownerId = mOld.ownerId) := by
  refine ⟨?_, ?_, ?_⟩
  · simp only [put, hl]
    rw [if_neg ho]
  · intro lc rm h
    simp [applyPull, h]
  · intro n' s' hok i mOld mNew h1 h2
    exact put_preserves_ownerId s n' s' hok i mOld mNew h1 h2

/-- A Note whose id matches [noteLocal] but whose owner differs. -/
def noteForeignOwner : Note :=
  ⟨"n1", "u2", some "T", some "delta", false, false, 0, 7, none⟩

theorem c6_ownerId_immutable_witness :
    put [noteLocal] noteForeignOwner = Except.error StoreError.OwnershipViolation :=
  (c6_ownerId_immutable [noteLocal] noteForeignOwner noteLocal (by decide) (by decide)).1

/-- A Note soft-deleted at time 0 (spec §8 retention scenario). -/
def noteTrashed : Note :=
  ⟨"n1", "u1", some "T", some "x", false, false, 0, 0, some 0⟩

/-- C7: `purgeExpired(retentionWindow, now)` keeps exactly the Notes not
satisfying `now - deletedAt > retentionWindow`; restore of a soft-deleted
Note succeeds iff `now - deletedAt <= retentionWindow`; and no other
operation (`put`, `softDelete`, `restore`) ever removes a record's id from
the store. -/
theorem c7_retention (window now : Nat) (s : Store) (i : String) (n : Note) (d : Nat)
    (hl : lookup s i = some n) (hd : n.deletedAt = some d) :
    ((∃ s', restore s i window now = Except.ok s') ↔ now - d ≤ window)
    ∧ (∀ m, m ∈ purgeExpired window now s ↔ (m ∈ s ∧ isExpired window now m = false))
    ∧ (∀ n' s', put s n' = Except.ok s' → idPreserved s s')
    ∧ (∀ j nowD, idPreserved s (softDelete s j nowD))
    ∧ (∀ j s', restore s j window now = Except.ok s' → idPreserved s s') := by
  refine ⟨?_, ?_, ?_, ?_, ?_⟩
  · constructor
    · rintro ⟨s', hs'⟩
      simp only [restore, hl, hd] at hs'
      by_cases hc : now - d ≤ window
      · exact hc
      · rw [if_neg hc] at hs'
        exact Except.noConfusion hs'
    · intro hc
      refine ⟨s.map (fun k => if k.id = i then { k with deletedAt := none } else k), ?_⟩
      simp only [restore, hl, hd]
      rw [if_pos hc]
  · intro m
    have h := mem_purgeExpired window now s m
    simpa [Bool.not_eq_true] using h
  · intro n' s' hok
    rcases hml : lookup s n'.id with _ | m0
    · simp only [put, hml] at hok
      have hs' : s' = s ++ [n'] := by cases hok; rfl
      subst hs'
      exact fun m hm => ⟨m, List.mem_append_left _ hm, rfl⟩
    · simp only [put, hml] at hok
      by_cases how : m0.ownerId = n'.ownerId
      · rw [if_pos how] at hok
        have hs' : s' = s.map (fun k => if k.id = n'.id then n' else k) := by
          cases hok; rfl
        subst hs'
        refine idPreserved_map s _ ?_
        intro k
        by_cases hk : k.id = n'.id
        · rw [if_pos hk]
          exact hk.symm
        · rw [if_neg hk]
      · rw [if_neg how] at hok
        exact Except.noConfusion hok
  · intro j nowD
    refine idPreserved_map s _ ?_
    intro k
    by_cases hk : k.id = j
    · rw [if_pos hk]
    · rw [if_neg hk]
  · intro j s' hok
    rcases hlj : lookup s j with _ | nj
    · simp only [restore, hlj] at hok
      exact Except.noConfusion hok
    · rcases hdj : nj.deletedAt with _ | dj
      · simp only [restore, hlj, hdj] at hok
        exact Except.noConfusion hok
      · simp only [restore, hlj, hdj] at hok
        by_cases hc : now - dj ≤ window
        · rw [if_pos hc] at hok
          have hs' : s' = s.map (fun k => if k.id = j then { k with deletedAt := none } else k) := by
            cases hok; rfl
          subst hs'
          refine idPreserved_map s _ ?_
          intro k
          by_cases hk : k.id = j
          · rw [if_pos hk]
          · rw [if_neg hk]
        · rw [if_neg hc] at hok
          exact Except.noConfusion hok

theorem c7_retention_witness :
    (∃ s', restore [noteTrashed] "n1" 7 6 = Except.ok s')
    ∧ noteTrashed ∉ purgeExpired 7 8 [noteTrashed] := by
  constructor
  · exact ((c7_retention 7 6 [noteTrashed] "n1" noteTrashed 0 (by decide) rfl).1).mpr
      (by decide)
  · intro hmem
    have h := ((c7_retention 7 8 [noteTrashed] "n1" noteTrashed 0 (by decide) rfl).2.1
      noteTrashed).mp hmem
    exact absurd h.2 (by decide)

/-- C9: a fetch event whose request method is not GET, or whose URL
contains "firebase", "googleapis" or "gstatic", is returned from without
`respondWith`: it is never intercepted, never served from cache, and
never written to the cache. -/
theorem c9_fetch_passthrough (req : FetchRequest)
    (h : req.method ≠ "GET" ∨ strIncludes req.url "firebase" = true
      ∨ strIncludes req.url "googleapis" = true
      ∨ strIncludes req.url "gstatic" = true) :
    handleFetch req = FetchAction.passthrough
    ∧ usesCache (handleFetch req) = false := by
  have hpass : handleFetch req = FetchAction.passthrough := by
    by_cases hm : req.method = "GET"
    · have hsub : (strIncludes req.url "firebase" || strIncludes req.url "googleapis" ||
          strIncludes req.url "gstatic") = true := by
        rcases h with h | h | h | h
        · exact absurd hm h
        · simp [h]
        · simp [h]
        · simp [h]
      simp only [handleFetch]
      rw [if_neg (fun hc => hc hm), if_pos hsub]
    · simp only [handleFetch]
      rw [if_pos hm]
  exact ⟨hpass, by rw [hpass]; rfl⟩

theorem c9_fetch_passthrough_witness :
    handleFetch ⟨"POST", "https://example.com/save", "cors", "/save"⟩ =
        FetchAction.passthrough
    ∧ usesCache (handleFetch ⟨"POST", "https://example.com/save", "cors", "/save"⟩) =
        false :=
  c9_fetch_passthrough ⟨"POST", "https://example.com/save", "cors", "/save"⟩
    (Or.inl (by decide))

/-- C10: after the activate handler runs over any pre-existing set of
cache names, exactly the caches named `CACHE_NAME` (`everynote-v2`)
survive — every other cache has been deleted — and `CACHE_NAME` is the
only cache name the worker ever opens for reading or writing. -/
theorem c10_activate_cache_cleanup :
    CACHE_NAME = "everynote-v2"
    ∧ (∀ names n, n ∈ activateSurvivors names ↔ (n ∈ names ∧ n = CACHE_NAME))
    ∧ (∀ c ∈ openedCacheNames, c = CACHE_NAME) := by
  refine ⟨rfl, ?_, ?_⟩
  · intro names n
    simp [activateSurvivors, List.mem_filter]
  · intro c hc
    have h3 : c = CACHE_NAME ∨ c = CACHE_NAME ∨ c = CACHE_NAME := by
      simpa [openedCacheNames] using hc
    tauto

theorem c10_activate_cache_cleanup_witness :
    "everynote-v1" ∉ activateSurvivors ["everynote-v1", "everynote-v2"]
    ∧ "everynote-v2" ∈ activateSurvivors ["everynote-v1", "everynote-v2"] := by
  constructor
  · intro h
    have hmem := (c10_activate_cache_cleanup.2.1 ["everynote-v1", "everynote-v2"]
      "everynote-v1").mp h
    exact absurd hmem.2 (by decide)
  · exact (c10_activate_cache_cleanup.2.1 ["everynote-v1", "everynote-v2"]
      "everynote-v2").mpr ⟨by decide, c10_activate_cache_cleanup.1.symm⟩

end Everynote
